import Mathlib

/-!
Verification of the cartographART cache layer (`cache.py`) and in-memory job
registry (`app/services/job_manager.py`).

The cache directory is modelled as an ordered list of directory entries, each
holding the four files a cache entry may contain (`meta.json`, `graph.pkl`,
`water.pkl`, `parks.pkl`).  A file on disk is `absent`, present but
malformed (`corrupt`: JSON parse or unpickle raises), or well-formed (`ok v`).
Pickled payloads are opaque to the cache code, so they are modelled by `Nat`
values; timestamps are modelled in whole days as `Nat`, with `datetime.now()`
passed explicitly as a `now` parameter.  Python exceptions inside a `try`
block are modelled with `Except`; the surrounding handler turns them into the
`Option`/`Bool` results the functions return.
-/

namespace CartographART

/-- A file slot on disk: missing, unreadable/undeserializable, or holding a
well-formed value. -/
inductive File (α : Type) where
  | absent
  | corrupt
  | ok (val : α)
  deriving DecidableEq, Repr

/-- Python `path.exists()` for a modelled file slot. -/
def fileExists {α : Type} : File α → Bool
  | .absent => false
  | _ => true

/-- Reading a mandatory file inside a `try` block: a missing or malformed
file raises. -/
def readFile {α : Type} : File α → Except Unit α
  | .ok v => .ok v
  | _ => .error ()

/-- Reading an optional pickle inside a `try` block, guarded by
`path.exists()`: a missing file is skipped (`None`), a malformed one
raises. -/
def readOptional {α : Type} : File α → Except Unit (Option α)
  | .absent => .ok none
  | .corrupt => .error ()
  | .ok v => .ok (some v)

/-- The parsed contents of a `meta.json` file, as written by `save_to_cache`. -/
structure Meta where
  city : String
  country : String
  distance : Int
  coords : List Int
  cachedAt : Nat
  deriving DecidableEq, Repr

/-- One entry of the cache directory: its name, whether it is a directory,
and the four file slots the cache code touches. -/
structure CacheEntry where
  name : String
  isDir : Bool
  metaJson : File Meta
  graphPkl : File Nat
  waterPkl : File Nat
  parksPkl : File Nat
  deriving DecidableEq, Repr

/-- The state of the cache directory: whether `CACHE_DIR` exists and its
entries in iteration order. -/
structure CacheState where
  dirExists : Bool
  entries : List CacheEntry
  deriving DecidableEq, Repr

/-- Constant `CACHE_EXPIRY_DAYS = 30` from `cache.py`; time is modelled in days. -/
def CACHE_EXPIRY_DAYS : Nat := 30

/-- Lowercasing a string, per character (`str.lower()`). -/
def lowerChars (cs : List Char) : List Char := cs.map Char.toLower

/-- Python `str.replace(a, b)` for single-character `a` and `b`. -/
def replaceChar (a b : Char) (cs : List Char) : List Char :=
  cs.map (fun c => if c = a then b else c)

/-- Python `str.replace(a, "")` for a single-character `a`. -/
def dropChar (a : Char) (cs : List Char) : List Char :=
  cs.filter (fun c => c ≠ a)

/-- Slug `city.lower().replace(" ", "_").replace(",", "")` from
`get_cache_key` and `find_cached_location`. -/
def citySlug (city : String) : String :=
  ⟨dropChar ',' (replaceChar ' ' '_' (lowerChars city.data))⟩

/-- Slug `country.lower().replace(" ", "_")` from `get_cache_key` and
`find_cached_location`. -/
def countrySlug (country : String) : String :=
  ⟨replaceChar ' ' '_' (lowerChars country.data)⟩

/-- Function `get_cache_key`: the normalized key city-slug, country-slug and
distance joined by underscores. -/
def get_cache_key (city country : String) (distance : Int) : String :=
  citySlug city ++ "_" ++ countrySlug country ++ "_" ++ toString distance

/-- Prefix test on character lists. -/
def isPrefixChars : List Char → List Char → Bool
  | [], _ => true
  | _ :: _, [] => false
  | a :: as, b :: bs => a == b && isPrefixChars as bs

/-- Structural `startsWith` on the underlying character lists. -/
def strStartsWith (s pfx : String) : Bool :=
  isPrefixChars pfx.data s.data

/-- The directory entry the key's path points at, if any: the cache key names
a directory under `CACHE_DIR`. -/
def findEntry (s : CacheState) (key : String) : Option CacheEntry :=
  if s.dirExists then s.entries.find? (fun e => e.name == key && e.isDir) else none

/-- The `meta.json` slot of a key's cache directory. -/
def metaFileOf (s : CacheState) (key : String) : File Meta :=
  match findEntry s key with
  | none => .absent
  | some e => e.metaJson

/-- The `graph.pkl` slot of a key's cache directory. -/
def graphFileOf (s : CacheState) (key : String) : File Nat :=
  match findEntry s key with
  | none => .absent
  | some e => e.graphPkl

/-- The `water.pkl` slot of a key's cache directory. -/
def waterFileOf (s : CacheState) (key : String) : File Nat :=
  match findEntry s key with
  | none => .absent
  | some e => e.waterPkl

/-- The `parks.pkl` slot of a key's cache directory. -/
def parksFileOf (s : CacheState) (key : String) : File Nat :=
  match findEntry s key with
  | none => .absent
  | some e => e.parksPkl

/-- Function `is_cache_valid(cache_key)`: meta must exist and parse, the entry must
not be expired (`datetime.now() > cached_time + 30 days` fails it), and the
required files `graph.pkl` and `meta.json` must exist.  Any exception while
reading or parsing yields `False`. -/
def is_cache_valid (s : CacheState) (key : String) (now : Nat) : Bool :=
  match metaFileOf s key with
  | .absent => false
  | .corrupt => false
  | .ok meta =>
    if now > meta.cachedAt + CACHE_EXPIRY_DAYS then false
    else fileExists (graphFileOf s key) && fileExists (metaFileOf s key)

/-- The dictionary `load_from_cache` returns on a hit. -/
structure CacheResult where
  graph : Nat
  water : Option Nat
  parks : Option Nat
  coords : List Int
  city : String
  country : String
  distance : Int
  cachedAt : Nat
  deriving DecidableEq, Repr

/-- The body of `load_from_cache`'s `try` block: read `meta.json` and
`graph.pkl` (raising if missing or malformed), then the optional `water.pkl`
and `parks.pkl` (skipped when missing, raising when malformed). -/
def loadAttempt (s : CacheState) (key : String) : Except Unit CacheResult := do
  let meta ← readFile (metaFileOf s key)
  let graph ← readFile (graphFileOf s key)
  let water ← readOptional (waterFileOf s key)
  let parks ← readOptional (parksFileOf s key)
  return ⟨graph, water, parks, meta.coords, meta.city, meta.country,
    meta.distance, meta.cachedAt⟩

/-- Function `load_from_cache(cache_key)`: `None` unless the entry is valid; then the
`try` block runs, any exception again yielding `None`. -/
def load_from_cache (s : CacheState) (key : String) (now : Nat) :
    Option CacheResult :=
  if is_cache_valid s key now then (loadAttempt s key).toOption else none

/-- A freshly created, empty cache directory for a key. -/
def emptyEntry (key : String) : CacheEntry :=
  ⟨key, true, .absent, .absent, .absent, .absent⟩

/-- Python `cache_path.mkdir(parents=True, exist_ok=True)`: ensures `CACHE_DIR` and
the key's directory exist (when `CACHE_DIR` did not exist it had no
entries). -/
def mkdirParents (s : CacheState) (key : String) : CacheState :=
  let entries := if s.dirExists then s.entries else []
  if entries.any (fun e => e.name == key && e.isDir) then ⟨true, entries⟩
  else ⟨true, entries ++ [emptyEntry key]⟩

/-- Writing a file inside the key's cache directory. -/
def modifyEntry (s : CacheState) (key : String) (f : CacheEntry → CacheEntry) :
    CacheState :=
  ⟨s.dirExists, s.entries.map (fun e => if e.name == key && e.isDir then f e else e)⟩

/-- Function `save_to_cache(cache_key, graph, water, parks, coords, city,
country, distance)`: makes the directory, always writes `graph.pkl`, writes
`water.pkl` and `parks.pkl` only when the value is not `None` (leaving any
previous file in place otherwise), then writes `meta.json` with
`cached_at = datetime.now()`.  Returns `True` with the new state. -/
def save_to_cache (s : CacheState) (key : String) (graph : Nat)
    (water parks : Option Nat) (coords : List Int) (city country : String)
    (distance : Int) (now : Nat) : Bool × CacheState :=
  let s1 := mkdirParents s key
  let s2 := modifyEntry s1 key (fun e => { e with graphPkl := .ok graph })
  let s3 := match water with
    | some w => modifyEntry s2 key (fun e => { e with waterPkl := .ok w })
    | none => s2
  let s4 := match parks with
    | some p => modifyEntry s3 key (fun e => { e with parksPkl := .ok p })
    | none => s3
  let s5 := modifyEntry s4 key (fun e =>
    { e with metaJson := .ok ⟨city, country, distance, coords, now⟩ })
  (true, s5)

/-- The scan inside `find_cached_location`: the first directory whose name
starts with the prefix and whose `meta.json` parses is returned (with the
entry name as its `cache_key`); a missing or malformed `meta.json` skips the
entry. -/
def findLoop (pfx : String) : List CacheEntry → Option (Meta × String)
  | [] => none
  | e :: rest =>
    if e.isDir && strStartsWith e.name pfx then
      match e.metaJson with
      | .ok m => some (m, e.name)
      | _ => findLoop pfx rest
    else findLoop pfx rest

/-- Function `find_cached_location(city, country)`: `None` when `CACHE_DIR` is
missing, otherwise the scan over entries with prefix
`{city_slug}_{country_slug}_`. -/
def find_cached_location (s : CacheState) (city country : String) :
    Option (Meta × String) :=
  if s.dirExists then
    findLoop (citySlug city ++ "_" ++ countrySlug country ++ "_") s.entries
  else none

/-- The loop of `list_cache`: every directory entry with an existing
`meta.json` contributes its parsed metadata; `json.load` is NOT wrapped in a
`try`, so a malformed `meta.json` raises out of `list_cache`. -/
def listLoop : List CacheEntry → Except Unit (List Meta)
  | [] => .ok []
  | e :: rest =>
    if e.isDir then
      match e.metaJson with
      | .absent => listLoop rest
      | .corrupt => .error ()
      | .ok m => do
        let ms ← listLoop rest
        return m :: ms
    else listLoop rest

/-- Function `list_cache()`: an empty list when `CACHE_DIR` is missing, otherwise the
scan; `Except.error` models an uncaught exception escaping to the caller. -/
def list_cache (s : CacheState) : Except Unit (List Meta) :=
  if s.dirExists then listLoop s.entries else .ok []

/-- Modelled from the spec: the `JobStatus` enum lives in `app/models.py`,
which is not among the provided sources; the spec names its members
pending, processing, completed and failed, with lifecycle
pending → processing → completed or failed. -/
inductive JobStatus where
  | pending
  | processing
  | completed
  | failed
  deriving DecidableEq, Repr

/-- One record of the in-memory `jobs` dict, as built by `create_job`.  The
request payload (`request.model_dump()`) is opaque to the registry and
modelled as a `String`. -/
structure Job where
  id : String
  status : JobStatus
  request : String
  createdAt : Nat
  completedAt : Option Nat
  resultFile : Option String
  error : Option String
  progress : Nat
  deriving DecidableEq, Repr

/-- The in-memory `jobs` dict: an insertion-ordered association list. -/
abbrev Jobs := List (String × Job)

/-- Python `jobs.get(job_id)`. -/
def jobsGet (js : Jobs) (jobId : String) : Option Job :=
  (js.find? (fun p => p.1 == jobId)).map Prod.snd

/-- Python `jobs[job_id] = j`: replace in place or append. -/
def jobsSet (js : Jobs) (jobId : String) (j : Job) : Jobs :=
  if js.any (fun p => p.1 == jobId) then
    js.map (fun p => if p.1 == jobId then (p.1, j) else p)
  else js ++ [(jobId, j)]

/-- Function `create_job(request)`: stores a fresh record with status PENDING,
progress 0 and empty completion fields.  The generated `uuid4` id and
`datetime.utcnow()` are passed explicitly. -/
def create_job (js : Jobs) (jobId : String) (request : String) (now : Nat) :
    Jobs :=
  jobsSet js jobId ⟨jobId, .pending, request, now, none, none, none, 0⟩

/-- The keyword arguments of `update_job`: each field is merged into the
record when supplied.  The `Option`-typed record fields can be set to
`None` explicitly, hence the doubled `Option`. -/
structure JobUpdate where
  status : Option JobStatus := none
  progress : Option Nat := none
  resultFile : Option (Option String) := none
  error : Option (Option String) := none
  completedAt : Option (Option Nat) := none
  deriving DecidableEq, Repr

/-- Python `jobs[job_id].update(kwargs)` on one record. -/
def applyUpdate (j : Job) (u : JobUpdate) : Job :=
  { j with
    status := u.status.getD j.status
    progress := u.progress.getD j.progress
    resultFile := u.resultFile.getD j.resultFile
    error := u.error.getD j.error
    completedAt := u.completedAt.getD j.completedAt }

/-- Function `update_job(job_id, **kwargs)`: merge into the record if the id is
present, otherwise do nothing. -/
def update_job (js : Jobs) (jobId : String) (u : JobUpdate) : Jobs :=
  if js.any (fun p => p.1 == jobId) then
    js.map (fun p => if p.1 == jobId then (p.1, applyUpdate p.2 u) else p)
  else js

/-- Function `get_job(job_id)` returns `jobs.get(job_id)`. -/
def get_job (js : Jobs) (jobId : String) : Option Job :=
  jobsGet js jobId

/-- A registry operation: a `create_job` (with its generated id) or an
`update_job`. -/
inductive JobOp where
  | create (jobId request : String) (now : Nat)
  | update (jobId : String) (u : JobUpdate)
  deriving Repr

/-- Apply one registry operation to the `jobs` dict. -/
def applyOp (js : Jobs) : JobOp → Jobs
  | .create jobId request now => create_job js jobId request now
  | .update jobId u => update_job js jobId u

/-- Run a sequence of registry operations from a given state. -/
def runOps (js : Jobs) (ops : List JobOp) : Jobs :=
  ops.foldl applyOp js

/-- The ids handed out by the `create` operations of a sequence. -/
def createdIds : List JobOp → List String
  | [] => []
  | .create jobId _ _ :: rest => jobId :: createdIds rest
  | .update _ _ :: rest => createdIds rest

/-- The optional-blob file slot after a save: written when the saved value is
not `None`, left as it was otherwise. -/
def blobAfter (new : Option Nat) (old : File Nat) : File Nat :=
  match new with
  | some v => .ok v
  | none => old

/-- The key's directory entry right after `mkdir(parents=True,
exist_ok=True)`: the existing one, or a fresh empty directory. -/
def entryAfterMkdir (s : CacheState) (key : String) : CacheEntry :=
  match findEntry s key with
  | some e => e
  | none => emptyEntry key

/-! ### Helper lemmas about the cache store -/

theorem find?_modify_self (l : List CacheEntry) (key : String)
    (f : CacheEntry → CacheEntry)
    (hf : ∀ e, (f e).name = e.name ∧ (f e).isDir = e.isDir) :
    (l.map (fun e => if e.name == key && e.isDir then f e else e)).find?
        (fun e => e.name == key && e.isDir)
      = (l.find? (fun e => e.name == key && e.isDir)).map f := by
  induction l with
  | nil => rfl
  | cons a l ih =>
    by_cases h : (a.name == key && a.isDir) = true
    · have hfa : ((f a).name == key && (f a).isDir) = true := by
        rw [(hf a).1, (hf a).2]; exact h
      rw [List.map_cons, if_pos h,
        List.find?_cons_of_pos (p := fun (e : CacheEntry) => e.name == key && e.isDir) _ hfa,
        List.find?_cons_of_pos (p := fun (e : CacheEntry) => e.name == key && e.isDir) _ h,
        Option.map_some']
    · rw [List.map_cons, if_neg h,
        List.find?_cons_of_neg (p := fun (e : CacheEntry) => e.name == key && e.isDir) _ h,
        List.find?_cons_of_neg (p := fun (e : CacheEntry) => e.name == key && e.isDir) _ h, ih]

theorem findEntry_modifyEntry (s : CacheState) (key : String)
    (f : CacheEntry → CacheEntry)
    (hf : ∀ e, (f e).name = e.name ∧ (f e).isDir = e.isDir) :
    findEntry (modifyEntry s key f) key = (findEntry s key).map f := by
  obtain ⟨d, entries⟩ := s
  cases d
  · rfl
  · exact find?_modify_self entries key f hf

theorem findEntry_mkdirParents (s : CacheState) (key : String) :
    findEntry (mkdirParents s key) key = some (entryAfterMkdir s key) := by
  obtain ⟨d, entries⟩ := s
  cases d
  · have hfe : findEntry ⟨false, entries⟩ key = none := rfl
    simp [mkdirParents, findEntry, entryAfterMkdir, hfe, emptyEntry]
  · by_cases h : entries.any (fun e => e.name == key && e.isDir) = true
    · obtain ⟨x, hx, hpx⟩ := List.any_eq_true.mp h
      cases hfind : entries.find? (fun e => e.name == key && e.isDir) with
      | none => exact absurd hpx (List.find?_eq_none.mp hfind x hx)
      | some e =>
        have hfe : findEntry ⟨true, entries⟩ key = some e := by
          simpa [findEntry] using hfind
        simp [mkdirParents, h, findEntry, hfind, entryAfterMkdir, hfe]
    · have hn : entries.find? (fun e => e.name == key && e.isDir) = none := by
        rw [List.find?_eq_none]
        intro x hx hpx
        exact h (List.any_eq_true.mpr ⟨x, hx, hpx⟩)
      have hfe : findEntry ⟨true, entries⟩ key = none := by
        simpa [findEntry] using hn
      simp [mkdirParents, h, findEntry, hn, entryAfterMkdir, hfe, emptyEntry,
        List.find?_append]

/-! ### C1: error handling of the cache-store operations -/

theorem listLoop_isOk_iff (l : List CacheEntry) :
    (listLoop l).isOk = true ↔
      ∀ e ∈ l, e.isDir = true → e.metaJson ≠ File.corrupt := by
  induction l with
  | nil => simp [listLoop, Except.isOk, Except.toBool]
  | cons a l ih =>
    by_cases hd : a.isDir = true
    · cases hm : a.metaJson with
      | absent => simp [listLoop, hd, hm, ih]
      | corrupt => simp [listLoop, hd, hm, Except.isOk, Except.toBool]
      | ok m =>
        cases hl : listLoop l with
        | error err =>
          rw [hl] at ih
          simp only [listLoop, hd, if_true, hm, hl]
          constructor
          · intro hfalse
            exact absurd hfalse (by simp [Except.bind, Except.isOk, Except.toBool])
          · intro hall
            have hok : (Except.error err : Except Unit (List Meta)).isOk = true :=
              ih.mpr (fun e he hdir => hall e (List.mem_cons_of_mem a he) hdir)
            exact absurd hok (by simp [Except.isOk, Except.toBool])
        | ok ms =>
          rw [hl] at ih
          simp only [listLoop, hd, if_true, hm, hl]
          constructor
          · intro _ e he hdir
            rcases List.mem_cons.mp he with rfl | he2
            · rw [hm]; exact fun hcon => File.noConfusion hcon
            · exact ih.mp (by simp [Except.isOk, Except.toBool]) e he2 hdir
          · intro _
            simp [Except.bind, Except.isOk, Except.toBool]
    · have hd' : a.isDir = false := by simpa using hd
      simp [listLoop, hd', ih]

/-- C1 (amended): the read-path operations and save are total over the
modelled states, returning miss sentinels or booleans, but `list_cache` does
not catch errors: it returns normally exactly when the cache directory is
missing or every directory entry's `meta.json` is absent or well-formed; one
malformed `meta.json` makes it raise. -/
theorem C1_cache_ops_fail_closed (s : CacheState) :
    (list_cache s).isOk = true ↔
      (s.dirExists = false ∨
        ∀ e ∈ s.entries, e.isDir = true → e.metaJson ≠ File.corrupt) := by
  unfold list_cache
  by_cases hd : s.dirExists = true
  · simp [hd, listLoop_isOk_iff]
  · have hb : s.dirExists = false := by simpa using hd
    simp [hb, Except.isOk, Except.toBool]

/-- C1 counterexample: a cache state whose single directory has a malformed
`meta.json` makes `list_cache` raise (the error escapes as `Except.error`),
refuting the claim that every cache-store operation, `list` included, never
lets an exception propagate. -/
theorem C1_counterexample :
    (list_cache ⟨true, [⟨"x_y_1", true, .corrupt, .absent, .absent, .absent⟩]⟩).isOk
      = false := by decide

/-! ### C3: the validity predicate -/

/-- C3 (amended): `is_cache_valid` is true iff the metadata record exists and
parses, `graph.pkl` exists, and `now` is at most `cached_at` plus the 30-day
window — the entry is still valid when exactly 30 days have elapsed and turns
invalid only strictly beyond; and any invalid entry makes `load_from_cache`
return the miss sentinel. -/
theorem C3_validity_characterization (s : CacheState) (key : String) (now : Nat) :
    (is_cache_valid s key now = true ↔
      ∃ m, metaFileOf s key = File.ok m
        ∧ now ≤ m.cachedAt + CACHE_EXPIRY_DAYS
        ∧ fileExists (graphFileOf s key) = true)
    ∧ (is_cache_valid s key now = false → load_from_cache s key now = none) := by
  constructor
  · unfold is_cache_valid
    cases hm : metaFileOf s key with
    | absent => simp
    | corrupt => simp
    | ok m =>
      dsimp only
      by_cases hexp : now > m.cachedAt + CACHE_EXPIRY_DAYS
      · rw [if_pos hexp]
        constructor
        · intro hfalse; cases hfalse
        · rintro ⟨m2, hm2, hle, _⟩
          cases hm2
          omega
      · rw [if_neg hexp]
        constructor
        · intro hAnd
          refine ⟨m, rfl, by omega, ?_⟩
          have h2 := hAnd
          simp only [Bool.and_eq_true] at h2
          exact h2.1
        · rintro ⟨m2, hm2, _, hg⟩
          cases hm2
          simp only [Bool.and_eq_true]
          exact ⟨hg, rfl⟩
  · intro h
    unfold load_from_cache
    simp [h]

/-- C3 counterexample: at exactly 30 days of age the code still reports the
entry valid, while the claim's strict bound (`elapsed < 30 days`) calls it
invalid. -/
theorem C3_counterexample :
    is_cache_valid
        ⟨true, [⟨"k_c_1", true, .ok ⟨"K", "C", 1, [0], 0⟩, .ok 1, .absent, .absent⟩]⟩
        "k_c_1" 30 = true
    ∧ ¬ ((30 : Nat) - 0 < CACHE_EXPIRY_DAYS) := by decide

/-! ### C2 and C4: what a save leaves on disk and what a load then sees -/

theorem findEntry_after_save (s : CacheState) (key : String) (g : Nat)
    (w p : Option Nat) (coords : List Int) (city country : String)
    (dist : Int) (now : Nat) :
    findEntry (save_to_cache s key g w p coords city country dist now).2 key
      = some ⟨(entryAfterMkdir s key).name, (entryAfterMkdir s key).isDir,
          .ok ⟨city, country, dist, coords, now⟩, .ok g,
          blobAfter w (entryAfterMkdir s key).waterPkl,
          blobAfter p (entryAfterMkdir s key).parksPkl⟩ := by
  have hpres : ∀ (x : File Meta) (y : File Nat),
      ∀ e : CacheEntry, (({ e with metaJson := x } : CacheEntry).name = e.name
        ∧ ({ e with metaJson := x } : CacheEntry).isDir = e.isDir)
      ∧ (({ e with graphPkl := y } : CacheEntry).name = e.name
        ∧ ({ e with graphPkl := y } : CacheEntry).isDir = e.isDir) :=
    fun _ _ _ => ⟨⟨rfl, rfl⟩, ⟨rfl, rfl⟩⟩
  unfold save_to_cache
  cases w <;> cases p <;>
    simp [findEntry_modifyEntry, findEntry_mkdirParents, blobAfter,
      fun e : CacheEntry => And.intro rfl rfl]

theorem is_cache_valid_after_save (s : CacheState) (key : String) (g : Nat)
    (w p : Option Nat) (coords : List Int) (city country : String)
    (dist : Int) (now : Nat) :
    is_cache_valid (save_to_cache s key g w p coords city country dist now).2
        key now = true := by
  have hfe := findEntry_after_save s key g w p coords city country dist now
  unfold is_cache_valid metaFileOf graphFileOf
  rw [hfe]
  dsimp only
  rw [if_neg (by omega)]
  rfl

theorem load_after_save (s : CacheState) (key : String) (g : Nat)
    (w p : Option Nat) (coords : List Int) (city country : String)
    (dist : Int) (now : Nat) (wres pres : Option Nat)
    (hw : readOptional (blobAfter w (entryAfterMkdir s key).waterPkl)
      = Except.ok wres)
    (hp : readOptional (blobAfter p (entryAfterMkdir s key).parksPkl)
      = Except.ok pres) :
    load_from_cache (save_to_cache s key g w p coords city country dist now).2
        key now
      = some ⟨g, wres, pres, coords, city, country, dist, now⟩ := by
  have hfe := findEntry_after_save s key g w p coords city country dist now
  unfold load_from_cache
  rw [is_cache_valid_after_save s key g w p coords city country dist now,
    if_pos rfl]
  unfold loadAttempt metaFileOf graphFileOf waterFileOf parksFileOf
  rw [hfe]
  dsimp only
  rw [hw, hp]
  rfl

/-- C2 (amended): a successful re-save replaces the graph, coordinates,
labels and timestamp wholesale, and a subsequent load reflects all of them;
but `water.pkl`/`parks.pkl` are written only when the newly saved value is
not `None`, so saving with `water = None` over an entry that had water leaves
the old blob in place, and its value (here `wres`, obtained by reading the
blob left after the save) is what load returns. -/
theorem C2_save_overwrite_behavior (s : CacheState) (key : String) (g : Nat)
    (w p : Option Nat) (coords : List Int) (city country : String)
    (dist : Int) (now : Nat) (wres pres : Option Nat)
    (hw : readOptional (blobAfter w (entryAfterMkdir s key).waterPkl)
      = Except.ok wres)
    (hp : readOptional (blobAfter p (entryAfterMkdir s key).parksPkl)
      = Except.ok pres) :
    (save_to_cache s key g w p coords city country dist now).1 = true
    ∧ load_from_cache (save_to_cache s key g w p coords city country dist now).2
        key now
      = some ⟨g, wres, pres, coords, city, country, dist, now⟩
    ∧ (∀ v, w = some v → wres = some v)
    ∧ (∀ v, p = some v → pres = some v) := by
  refine ⟨rfl,
    load_after_save s key g w p coords city country dist now wres pres hw hp,
    ?_, ?_⟩
  · intro v hv
    subst hv
    simp only [blobAfter, readOptional, Except.ok.injEq] at hw
    exact hw.symm
  · intro v hv
    subst hv
    simp only [blobAfter, readOptional, Except.ok.injEq] at hp
    exact hp.symm

/-- C2 witness: over an empty cache, saving with water present and parks
absent round-trips exactly, discharging the hypotheses at a concrete
input. -/
theorem C2_witness :
    (save_to_cache ⟨true, []⟩ "a_b_1" 2 (some 3) none [1] "A" "B" 1 0).1 = true
    ∧ load_from_cache
        (save_to_cache ⟨true, []⟩ "a_b_1" 2 (some 3) none [1] "A" "B" 1 0).2
        "a_b_1" 0
      = some ⟨2, some 3, none, [1], "A", "B", 1, 0⟩
    ∧ (∀ v, (some 3 : Option Nat) = some v → (some 3 : Option Nat) = some v)
    ∧ (∀ v, (none : Option Nat) = some v → (none : Option Nat) = some v) :=
  C2_save_overwrite_behavior ⟨true, []⟩ "a_b_1" 2 (some 3) none [1] "A" "B" 1 0
    (some 3) none rfl rfl

/-- C2 counterexample: saving with `water = None` over an entry that had
water leaves the old water visible to the very next load, refuting the claim
that no field survives from the previous entry. -/
theorem C2_counterexample :
    (load_from_cache (save_to_cache ⟨true, [⟨"paris_france_1000", true,
          .ok ⟨"Paris", "France", 1000, [48, 2], 0⟩, .ok 1, .ok 7, .absent⟩]⟩
        "paris_france_1000" 2 none none [48, 2] "Paris" "France" 1000 5).2
        "paris_france_1000" 5).map CacheResult.water
      = some (some 7)
    ∧ (load_from_cache (save_to_cache ⟨true, [⟨"paris_france_1000", true,
          .ok ⟨"Paris", "France", 1000, [48, 2], 0⟩, .ok 1, .ok 7, .absent⟩]⟩
        "paris_france_1000" 2 none none [48, 2] "Paris" "France" 1000 5).2
        "paris_france_1000" 5).map CacheResult.water
      ≠ some none := by decide

/-- C4 (amended): save followed immediately by load returns exactly the
saved graph, water, parks and coords, with the recorded timestamp inside the
expiry window, provided the save does not pass `None` for an optional blob
that the key's previous entry still stores (fresh keys, or non-`None` water
and parks, satisfy this). -/
theorem C4_roundtrip_amended (s : CacheState) (key : String) (g : Nat)
    (w p : Option Nat) (coords : List Int) (city country : String)
    (dist : Int) (now : Nat)
    (hw : w = none → (entryAfterMkdir s key).waterPkl = File.absent)
    (hp : p = none → (entryAfterMkdir s key).parksPkl = File.absent) :
    load_from_cache (save_to_cache s key g w p coords city country dist now).2
        key now
      = some ⟨g, w, p, coords, city, country, dist, now⟩
    ∧ is_cache_valid (save_to_cache s key g w p coords city country dist now).2
        key now = true := by
  have hw2 : readOptional (blobAfter w (entryAfterMkdir s key).waterPkl)
      = Except.ok w := by
    cases w with
    | none => rw [blobAfter, hw rfl]; rfl
    | some v => rfl
  have hp2 : readOptional (blobAfter p (entryAfterMkdir s key).parksPkl)
      = Except.ok p := by
    cases p with
    | none => rw [blobAfter, hp rfl]; rfl
    | some v => rfl
  exact ⟨load_after_save s key g w p coords city country dist now w p hw2 hp2,
    is_cache_valid_after_save s key g w p coords city country dist now⟩

/-- C4 witness: saving non-`None` water and parks over a stale expired entry
replaces everything, and the immediate load returns exactly the saved data,
now valid again. -/
theorem C4_witness :
    load_from_cache (save_to_cache ⟨true, [⟨"k_c_2", true,
          .ok ⟨"Old", "Old", 2, [9], 0⟩, .ok 50, .ok 60, .corrupt⟩]⟩
        "k_c_2" 5 (some 6) (some 7) [2] "C" "D" 2 40).2
        "k_c_2" 40
      = some ⟨5, some 6, some 7, [2], "C", "D", 2, 40⟩
    ∧ is_cache_valid (save_to_cache ⟨true, [⟨"k_c_2", true,
          .ok ⟨"Old", "Old", 2, [9], 0⟩, .ok 50, .ok 60, .corrupt⟩]⟩
        "k_c_2" 5 (some 6) (some 7) [2] "C" "D" 2 40).2
        "k_c_2" 40 = true :=
  C4_roundtrip_amended ⟨true, [⟨"k_c_2", true,
      .ok ⟨"Old", "Old", 2, [9], 0⟩, .ok 50, .ok 60, .corrupt⟩]⟩
    "k_c_2" 5 (some 6) (some 7) [2] "C" "D" 2 40
    (fun h => Option.noConfusion h) (fun h => Option.noConfusion h)

/-- C4 counterexample: the round-trip fails as universally stated — saving
`water = None` over an entry that still has a water blob makes the immediate
load return the stale water instead of the `None` that was saved. -/
theorem C4_counterexample :
    (load_from_cache (save_to_cache ⟨true, [⟨"berlin_germany_2000", true,
          .ok ⟨"Berlin", "Germany", 2000, [52, 13], 0⟩, .ok 4, .ok 9, .absent⟩]⟩
        "berlin_germany_2000" 5 none none [52, 13] "Berlin" "Germany" 2000 3).2
        "berlin_germany_2000" 3).map CacheResult.water
      = some (some 9)
    ∧ (load_from_cache (save_to_cache ⟨true, [⟨"berlin_germany_2000", true,
          .ok ⟨"Berlin", "Germany", 2000, [52, 13], 0⟩, .ok 4, .ok 9, .absent⟩]⟩
        "berlin_germany_2000" 5 none none [52, 13] "Berlin" "Germany" 2000 3).2
        "berlin_germany_2000" 3).map CacheResult.water
      ≠ some none := by decide

/-! ### C9: partial-write resilience of load -/

/-- C9: when `water.pkl` is absent but `meta.json` parses and `graph.pkl`
loads, and the entry is within the expiry window, load succeeds and returns
`water = None` with the graph, coords and labels loaded normally. -/
theorem C9_partial_write_resilience (s : CacheState) (key : String)
    (now : Nat) (m : Meta) (g : Nat) (pres : Option Nat)
    (hm : metaFileOf s key = File.ok m)
    (hg : graphFileOf s key = File.ok g)
    (hw : waterFileOf s key = File.absent)
    (hp : readOptional (parksFileOf s key) = Except.ok pres)
    (hexp : now ≤ m.cachedAt + CACHE_EXPIRY_DAYS) :
    load_from_cache s key now
      = some ⟨g, none, pres, m.coords, m.city, m.country, m.distance,
          m.cachedAt⟩ := by
  have hvalid : is_cache_valid s key now = true := by
    unfold is_cache_valid
    rw [hm]
    dsimp only
    rw [if_neg (by omega), hg]
    rfl
  unfold load_from_cache
  rw [hvalid, if_pos rfl]
  unfold loadAttempt
  rw [hm, hg, hw, hp]
  rfl

/-- C9 witness: a concrete fresh entry with no `water.pkl` loads with
`water = None`. -/
theorem C9_witness :
    load_from_cache ⟨true, [⟨"lyon_france_3000", true,
        .ok ⟨"Lyon", "France", 3000, [45, 4], 10⟩, .ok 8, .absent, .ok 11⟩]⟩
      "lyon_france_3000" 20
      = some ⟨8, none, some 11, [45, 4], "Lyon", "France", 3000, 10⟩ :=
  C9_partial_write_resilience
    ⟨true, [⟨"lyon_france_3000", true,
        .ok ⟨"Lyon", "France", 3000, [45, 4], 10⟩, .ok 8, .absent, .ok 11⟩]⟩
    "lyon_france_3000" 20 ⟨"Lyon", "France", 3000, [45, 4], 10⟩ 8 (some 11)
    rfl rfl rfl rfl (by decide)

/-! ### C6 and C10: the prefix scan of find_cached_location -/

theorem findLoop_some_of (pfx : String) (l : List CacheEntry) (e : CacheEntry)
    (m : Meta) (he : e ∈ l) (hd : e.isDir = true)
    (hs : strStartsWith e.name pfx = true) (hm : e.metaJson = File.ok m) :
    ∃ r : Meta × String, findLoop pfx l = some r
      ∧ strStartsWith r.2 pfx = true
      ∧ ∃ e2 ∈ l, e2.name = r.2 ∧ e2.isDir = true
          ∧ e2.metaJson = File.ok r.1 := by
  induction l with
  | nil => cases he
  | cons a l ih =>
    by_cases hda : a.isDir = true
    · by_cases hsa : strStartsWith a.name pfx = true
      · cases hma : a.metaJson with
        | ok m2 =>
          exact ⟨(m2, a.name), by simp [findLoop, hda, hsa, hma], hsa,
            a, List.mem_cons_self a l, rfl, hda, hma⟩
        | absent =>
          have he2 : e ∈ l := by
            rcases List.mem_cons.mp he with rfl | h2
            · rw [hma] at hm; cases hm
            · exact h2
          obtain ⟨r, hr, hrs, e2, he3, hn, hd2, hm2⟩ := ih he2
          exact ⟨r, by simp [findLoop, hda, hsa, hma, hr], hrs,
            e2, List.mem_cons_of_mem a he3, hn, hd2, hm2⟩
        | corrupt =>
          have he2 : e ∈ l := by
            rcases List.mem_cons.mp he with rfl | h2
            · rw [hma] at hm; cases hm
            · exact h2
          obtain ⟨r, hr, hrs, e2, he3, hn, hd2, hm2⟩ := ih he2
          exact ⟨r, by simp [findLoop, hda, hsa, hma, hr], hrs,
            e2, List.mem_cons_of_mem a he3, hn, hd2, hm2⟩
      · have he2 : e ∈ l := by
          rcases List.mem_cons.mp he with rfl | h2
          · exact absurd hs hsa
          · exact h2
        obtain ⟨r, hr, hrs, e2, he3, hn, hd2, hm2⟩ := ih he2
        have hsa2 : strStartsWith a.name pfx = false := by simpa using hsa
        exact ⟨r, by simp [findLoop, hsa2, hr], hrs,
          e2, List.mem_cons_of_mem a he3, hn, hd2, hm2⟩
    · have he2 : e ∈ l := by
        rcases List.mem_cons.mp he with rfl | h2
        · exact absurd hd hda
        · exact h2
      obtain ⟨r, hr, hrs, e2, he3, hn, hd2, hm2⟩ := ih he2
      have hda2 : a.isDir = false := by simpa using hda
      exact ⟨r, by simp [findLoop, hda2, hr], hrs,
        e2, List.mem_cons_of_mem a he3, hn, hd2, hm2⟩

theorem findLoop_none_of (pfx : String) (l : List CacheEntry)
    (h : ∀ e ∈ l, e.isDir = true → strStartsWith e.name pfx = false) :
    findLoop pfx l = none := by
  induction l with
  | nil => rfl
  | cons a l ih =>
    have hrec := ih (fun e he => h e (List.mem_cons_of_mem a he))
    by_cases hda : a.isDir = true
    · have hsa := h a (List.mem_cons_self a l) hda
      simp [findLoop, hda, hsa, hrec]
    · have hda2 : a.isDir = false := by simpa using hda
      simp [findLoop, hda2, hrec]

/-- C6: when the cache directory exists and some directory entry with a
parseable `meta.json` has a name starting with the normalized
`city_country_` prefix — whatever its distance suffix — `find_cached_location`
returns the metadata (and key) of such a prefix-matching entry; and when no
entry's name starts with that prefix it returns the miss sentinel. -/
theorem C6_find_by_location (s : CacheState) (city country : String) :
    (∀ e m, s.dirExists = true → e ∈ s.entries → e.isDir = true →
      strStartsWith e.name
          (citySlug city ++ "_" ++ countrySlug country ++ "_") = true →
      e.metaJson = File.ok m →
      ∃ r : Meta × String, find_cached_location s city country = some r
        ∧ strStartsWith r.2
            (citySlug city ++ "_" ++ countrySlug country ++ "_") = true
        ∧ ∃ e2 ∈ s.entries, e2.name = r.2 ∧ e2.isDir = true
            ∧ e2.metaJson = File.ok r.1)
    ∧ ((∀ e ∈ s.entries, e.isDir = true →
        strStartsWith e.name
            (citySlug city ++ "_" ++ countrySlug country ++ "_") = false) →
      find_cached_location s city country = none) := by
  constructor
  · intro e m hdir he hd hs hm
    obtain ⟨r, hr, hrs, hwit⟩ :=
      findLoop_some_of (citySlug city ++ "_" ++ countrySlug country ++ "_")
        s.entries e m he hd hs hm
    refine ⟨r, ?_, hrs, hwit⟩
    unfold find_cached_location
    rw [hdir, if_pos rfl, hr]
  · intro hall
    unfold find_cached_location
    by_cases hdir : s.dirExists = true
    · rw [hdir, if_pos rfl]
      exact findLoop_none_of _ _ hall
    · rw [if_neg (by simpa using hdir)]

/-- C10: `find_cached_location` applies no validity filtering — here the
first entry matches the prefix and has readable metadata, and is returned
even under the explicit hypothesis that `is_cache_valid` is false for its
key (expired or missing `graph.pkl`). -/
theorem C10_find_ignores_validity (s : CacheState) (city country : String)
    (e : CacheEntry) (m : Meta) (rest : List CacheEntry) (now : Nat)
    (hdir : s.dirExists = true) (hent : s.entries = e :: rest)
    (hd : e.isDir = true)
    (hs : strStartsWith e.name
      (citySlug city ++ "_" ++ countrySlug country ++ "_") = true)
    (hm : e.metaJson = File.ok m)
    (_hinv : is_cache_valid s e.name now = false) :
    find_cached_location s city country = some (m, e.name) := by
  unfold find_cached_location
  rw [hdir, if_pos rfl, hent]
  simp [findLoop, hd, hs, hm]

/-- C10 witness: a concrete expired entry that also lost its `graph.pkl`
(hence invalid) is still returned by the location scan. -/
theorem C10_witness :
    find_cached_location ⟨true, [⟨"rome_italy_500", true,
        .ok ⟨"Rome", "Italy", 500, [41, 12], 0⟩, .absent, .absent, .absent⟩]⟩
      "Rome" "Italy"
      = some (⟨"Rome", "Italy", 500, [41, 12], 0⟩, "rome_italy_500") :=
  C10_find_ignores_validity
    ⟨true, [⟨"rome_italy_500", true,
        .ok ⟨"Rome", "Italy", 500, [41, 12], 0⟩, .absent, .absent, .absent⟩]⟩
    "Rome" "Italy"
    ⟨"rome_italy_500", true, .ok ⟨"Rome", "Italy", 500, [41, 12], 0⟩,
      .absent, .absent, .absent⟩
    ⟨"Rome", "Italy", 500, [41, 12], 0⟩ [] 100
    rfl rfl rfl (by decide) rfl (by decide)

/-! ### Helper lemmas about the job registry -/

theorem find?_fst_map_self (js : Jobs) (jobId : String)
    (g : String × Job → String × Job) (hg : ∀ q, (g q).1 = q.1) :
    (js.map (fun q => if q.1 == jobId then g q else q)).find?
        (fun q => q.1 == jobId)
      = (js.find? (fun q => q.1 == jobId)).map g := by
  induction js with
  | nil => rfl
  | cons a l ih =>
    by_cases h : (a.1 == jobId) = true
    · have hga : ((g a).1 == jobId) = true := by rw [hg a]; exact h
      rw [List.map_cons, if_pos h,
        List.find?_cons_of_pos (p := fun (q : String × Job) => q.1 == jobId) _ hga,
        List.find?_cons_of_pos (p := fun (q : String × Job) => q.1 == jobId) _ h,
        Option.map_some']
    · rw [List.map_cons, if_neg h,
        List.find?_cons_of_neg (p := fun (q : String × Job) => q.1 == jobId) _ h,
        List.find?_cons_of_neg (p := fun (q : String × Job) => q.1 == jobId) _ h,
        ih]

theorem find?_fst_map_other (js : Jobs) (id1 id2 : String)
    (g : String × Job → String × Job) (hg : ∀ q, (g q).1 = q.1)
    (hne : id1 ≠ id2) :
    (js.map (fun q => if q.1 == id2 then g q else q)).find?
        (fun q => q.1 == id1)
      = js.find? (fun q => q.1 == id1) := by
  induction js with
  | nil => rfl
  | cons a l ih =>
    by_cases h2 : (a.1 == id2) = true
    · have ha : a.1 = id2 := by simpa using h2
      have h1 : ¬ ((a.1 == id1) = true) := by
        rw [ha]
        simpa using Ne.symm hne
      have h1g : ¬ (((g a).1 == id1) = true) := by
        rw [hg a, ha]
        simpa using Ne.symm hne
      rw [List.map_cons, if_pos h2,
        List.find?_cons_of_neg (p := fun (q : String × Job) => q.1 == id1) _ h1g,
        List.find?_cons_of_neg (p := fun (q : String × Job) => q.1 == id1) _ h1,
        ih]
    · by_cases h1 : (a.1 == id1) = true
      · rw [List.map_cons, if_neg h2,
          List.find?_cons_of_pos (p := fun (q : String × Job) => q.1 == id1) _ h1,
          List.find?_cons_of_pos (p := fun (q : String × Job) => q.1 == id1) _ h1]
      · rw [List.map_cons, if_neg h2,
          List.find?_cons_of_neg (p := fun (q : String × Job) => q.1 == id1) _ h1,
          List.find?_cons_of_neg (p := fun (q : String × Job) => q.1 == id1) _ h1,
          ih]

theorem jobsGet_not_found (js : Jobs) (jobId : String)
    (h : js.any (fun q => q.1 == jobId) = false) :
    jobsGet js jobId = none := by
  unfold jobsGet
  have hn : js.find? (fun q => q.1 == jobId) = none := by
    rw [List.find?_eq_none]
    intro q hq
    exact List.any_eq_false.mp h q hq
  rw [hn]
  rfl

theorem jobsGet_update_job (js : Jobs) (jobId : String) (u : JobUpdate) :
    jobsGet (update_job js jobId u) jobId
      = (jobsGet js jobId).map (fun j => applyUpdate j u) := by
  unfold update_job
  by_cases h : js.any (fun q => q.1 == jobId) = true
  · rw [if_pos h]
    unfold jobsGet
    rw [find?_fst_map_self js jobId
      (fun q => (q.1, applyUpdate q.2 u)) (fun q => rfl)]
    cases js.find? (fun q => q.1 == jobId) <;> rfl
  · rw [if_neg h, jobsGet_not_found js jobId (Bool.eq_false_iff.mpr h)]
    rfl

theorem jobsGet_update_job_other (js : Jobs) (id1 id2 : String)
    (u : JobUpdate) (hne : id1 ≠ id2) :
    jobsGet (update_job js id2 u) id1 = jobsGet js id1 := by
  unfold update_job
  by_cases h : js.any (fun q => q.1 == id2) = true
  · rw [if_pos h]
    unfold jobsGet
    rw [find?_fst_map_other js id1 id2
      (fun q => (q.1, applyUpdate q.2 u)) (fun q => rfl) hne]
  · rw [if_neg h]

theorem jobsGet_set_self (js : Jobs) (jobId : String) (j : Job) :
    jobsGet (jobsSet js jobId j) jobId = some j := by
  unfold jobsSet
  by_cases h : js.any (fun q => q.1 == jobId) = true
  · rw [if_pos h]
    unfold jobsGet
    rw [find?_fst_map_self js jobId (fun q => (q.1, j)) (fun q => rfl)]
    obtain ⟨x, hx, hpx⟩ := List.any_eq_true.mp h
    cases hfind : js.find? (fun q => q.1 == jobId) with
    | none => exact absurd hpx (List.find?_eq_none.mp hfind x hx)
    | some q => rfl
  · rw [if_neg h]
    unfold jobsGet
    rw [List.find?_append]
    have hn : js.find? (fun q => q.1 == jobId) = none := by
      rw [List.find?_eq_none]
      intro q hq
      exact List.any_eq_false.mp (Bool.eq_false_iff.mpr h) q hq
    rw [hn]
    simp

theorem jobsGet_set_other (js : Jobs) (id1 id2 : String) (j : Job)
    (hne : id1 ≠ id2) :
    jobsGet (jobsSet js id2 j) id1 = jobsGet js id1 := by
  unfold jobsSet
  by_cases h : js.any (fun q => q.1 == id2) = true
  · rw [if_pos h]
    unfold jobsGet
    rw [find?_fst_map_other js id1 id2 (fun q => (q.1, j)) (fun q => rfl) hne]
  · rw [if_neg h]
    unfold jobsGet
    rw [List.find?_append]
    have hlast : List.find? (fun (q : String × Job) => q.1 == id1) [(id2, j)]
        = none :=
      List.find?_cons_of_neg _ (by simpa using Ne.symm hne)
    rw [hlast]
    cases js.find? (fun q => q.1 == id1) <;> rfl

theorem jobsGet_create_self (js : Jobs) (jobId req : String) (now : Nat) :
    jobsGet (create_job js jobId req now) jobId
      = some ⟨jobId, .pending, req, now, none, none, none, 0⟩ :=
  jobsGet_set_self js jobId _

theorem jobsGet_create_other (js : Jobs) (id1 id2 req : String) (now : Nat)
    (hne : id1 ≠ id2) :
    jobsGet (create_job js id2 req now) id1 = jobsGet js id1 :=
  jobsGet_set_other js id1 id2 _ hne

theorem jobsGet_runOps_none (ops : List JobOp) :
    ∀ (js : Jobs) (jobId : String), jobsGet js jobId = none →
      jobId ∉ createdIds ops → jobsGet (runOps js ops) jobId = none := by
  induction ops with
  | nil =>
    intro js jobId h0 _
    exact h0
  | cons op ops ih =>
    intro js jobId h0 hc
    cases op with
    | create id2 req now =>
      simp only [createdIds, List.mem_cons, not_or] at hc
      obtain ⟨hne, hrec⟩ := hc
      have hstep : runOps js (JobOp.create id2 req now :: ops)
          = runOps (create_job js id2 req now) ops := rfl
      rw [hstep]
      refine ih _ _ ?_ hrec
      rw [jobsGet_create_other js jobId id2 req now hne]
      exact h0
    | update id2 u =>
      simp only [createdIds] at hc
      have hstep : runOps js (JobOp.update id2 u :: ops)
          = runOps (update_job js id2 u) ops := rfl
      rw [hstep]
      refine ih _ _ ?_ hc
      by_cases hq : jobId = id2
      · subst hq
        rw [jobsGet_update_job, h0]
        rfl
      · rw [jobsGet_update_job_other js jobId id2 u hq]
        exact h0

/-! ### C5, C7 and C8: the job registry -/

/-- C5 (amended): the registry does not enforce the monotone lifecycle —
`update_job` merges exactly the fields it is given, so after an update the
status is precisely the supplied one (or the old one when none is supplied)
and the completion timestamp changes only when the updater passes it; a
later update can therefore move a completed or failed job back to
pending. -/
theorem C5_update_merges_fields (js : Jobs) (jobId : String) (j : Job)
    (u : JobUpdate) (hj : jobsGet js jobId = some j) :
    jobsGet (update_job js jobId u) jobId = some (applyUpdate j u)
    ∧ (applyUpdate j u).status = u.status.getD j.status
    ∧ (applyUpdate j u).completedAt = u.completedAt.getD j.completedAt := by
  refine ⟨?_, rfl, rfl⟩
  rw [jobsGet_update_job, hj]
  rfl

/-- C5 witness: a status-less progress update on a completed job leaves its
terminal status and completion timestamp untouched. -/
theorem C5_witness :
    jobsGet (update_job
        [("w5", ⟨"w5", .completed, "r", 0, some 1, some "f", none, 100⟩)]
        "w5" ⟨none, some 55, none, none, none⟩) "w5"
      = some (applyUpdate ⟨"w5", .completed, "r", 0, some 1, some "f", none, 100⟩
          ⟨none, some 55, none, none, none⟩)
    ∧ (applyUpdate (⟨"w5", .completed, "r", 0, some 1, some "f", none, 100⟩ : Job)
        ⟨none, some 55, none, none, none⟩).status
      = (none : Option JobStatus).getD JobStatus.completed
    ∧ (applyUpdate (⟨"w5", .completed, "r", 0, some 1, some "f", none, 100⟩ : Job)
        ⟨none, some 55, none, none, none⟩).completedAt
      = (none : Option (Option Nat)).getD (some 1) :=
  C5_update_merges_fields _ "w5" _ _ rfl

/-- C5 counterexample: an update carrying `status = pending` moves a
completed job back to pending, and an update that sets `status = completed`
without a completion timestamp leaves `completed_at` unset — refuting the
claimed monotonic-transition invariant over all registry operations. -/
theorem C5_counterexample :
    (jobsGet (update_job
        [("j1", ⟨"j1", .completed, "r", 0, some 10, some "f.png", none, 100⟩)]
        "j1" ⟨some .pending, none, none, none, none⟩) "j1").map Job.status
      = some JobStatus.pending
    ∧ (jobsGet (update_job
        [("j2", ⟨"j2", .processing, "r", 1, none, none, none, 50⟩)]
        "j2" ⟨some .completed, none, none, none, none⟩) "j2").map Job.completedAt
      = some none :=
  ⟨rfl, rfl⟩

/-- C7: create yields a pending record with progress 0; an update to
processing is reflected by get; an update to completed with a result file is
reflected with that result reference; and get on an id never handed out by
any create in a run from the empty registry yields the not-found signal. -/
theorem C7_job_lifecycle (js : Jobs) (jobId req fileX : String) (now : Nat) :
    get_job (create_job js jobId req now) jobId
      = some ⟨jobId, .pending, req, now, none, none, none, 0⟩
    ∧ (get_job (update_job (create_job js jobId req now) jobId
          ⟨some .processing, none, none, none, none⟩) jobId).map Job.status
      = some JobStatus.processing
    ∧ (get_job (update_job (update_job (create_job js jobId req now) jobId
          ⟨some .processing, none, none, none, none⟩) jobId
          ⟨some .completed, none, some (some fileX), none, none⟩) jobId).map
        (fun j => (j.status, j.resultFile))
      = some (JobStatus.completed, some fileX)
    ∧ (∀ ops : List JobOp, jobId ∉ createdIds ops →
        get_job (runOps [] ops) jobId = none) := by
  unfold get_job
  refine ⟨jobsGet_create_self js jobId req now, ?_, ?_, ?_⟩
  · rw [jobsGet_update_job, jobsGet_create_self]
    rfl
  · rw [jobsGet_update_job, jobsGet_update_job, jobsGet_create_self]
    rfl
  · intro ops hc
    exact jobsGet_runOps_none ops [] jobId rfl hc

/-- C8: for an id not present in the registry, get returns the not-found
signal and update is a silent no-op that leaves the whole registry
unchanged. -/
theorem C8_unknown_id (js : Jobs) (jobId : String) (u : JobUpdate)
    (h : ∀ q ∈ js, q.1 ≠ jobId) :
    get_job js jobId = none ∧ update_job js jobId u = js := by
  have hany : js.any (fun q => q.1 == jobId) = false := by
    rw [List.any_eq_false]
    intro q hq
    simpa using h q hq
  constructor
  · unfold get_job
    exact jobsGet_not_found js jobId hany
  · unfold update_job
    rw [if_neg (by simp [hany])]

/-- C8 witness: a concrete one-job registry, queried and updated with an
unknown id. -/
theorem C8_witness :
    get_job [("a", ⟨"a", .pending, "r", 0, none, none, none, 0⟩)] "b" = none
    ∧ update_job [("a", ⟨"a", .pending, "r", 0, none, none, none, 0⟩)] "b"
        ⟨some .completed, none, none, none, none⟩
      = [("a", ⟨"a", .pending, "r", 0, none, none, none, 0⟩)] :=
  C8_unknown_id _ "b" _ (by decide)

end CartographART

